import Mathlib

/-!
# QueueCTL: shallow embedding of the job-queue core

This file embeds the SQLite-backed job queue of `queuectl` in Lean and
proves the spec's claims about it.

Modelling conventions:
* The `jobs` table (`db.py`, schema `CREATE TABLE jobs ...`) is a
  `List Job` in rowid (insertion) order; every column keeps its SQL name
  and type (`TEXT` becomes `String`/`Option String`, `INTEGER` becomes
  `Int`).
* Timestamps (`created_at`, `updated_at`) are ISO-8601 `TEXT`; SQLite
  compares `TEXT` bytewise, modelled by `String` order.
* `ORDER BY k LIMIT 1` leaves the order of rows with equal keys
  unspecified in SQL; the model fixes it to table (insertion) order,
  matching SQLite's scan of the table.
* Wall-clock reads (`_now_iso()`) become explicit `now : String`
  parameters; the outcome of `subprocess.run` becomes an explicit
  `runner : String → Int × String × String` (exit code, stdout, stderr).
-/

/-- Strict lexicographic order on character lists: the model of SQLite's
bytewise comparison of `TEXT` values (on valid UTF-8, bytewise order and
code-point order agree). -/
def charListLt : List Char → List Char → Bool
  | [], [] => false
  | [], _ :: _ => true
  | _ :: _, [] => false
  | a :: as, b :: bs => if a < b then true else if b < a then false else charListLt as bs

/-- SQLite's `<` on two `TEXT` values. -/
def textLt (a b : String) : Bool := charListLt a.data b.data

/-- One row of the `jobs` table (`models.py`, `Job` dataclass and
`db.py` schema). -/
structure Job where
  id : String
  command : String
  state : String
  attempts : Int
  max_retries : Int
  created_at : String
  updated_at : String
  last_error : Option String
  result : Option String
  deriving DecidableEq, Repr

/-- `Job(id=..., command=..., max_retries=...)` with the dataclass
defaults of `models.py`: `state="pending"`, `attempts=0`, and
`__post_init__` stamping `created_at`/`updated_at` with the same
timestamp. -/
def Job.make (id command : String) (mr : Int) (ts : String) : Job :=
  { id := id, command := command, state := "pending", attempts := 0,
    max_retries := mr, created_at := ts, updated_at := ts,
    last_error := none, result := none }

/-- `SELECT id FROM jobs WHERE state='pending' ORDER BY created_at LIMIT 1`
(the subquery of `_claim_one_job` in `worker_core.py`): the first row in
table order among the pending rows of minimal `created_at` (SQL does not
specify the order of equal keys; see the module conventions). -/
def selectOldestPending : List Job → Option Job
  | [] => none
  | j :: rest =>
    let r := selectOldestPending rest
    if j.state = "pending" then
      match r with
      | none => some j
      | some k => if textLt k.created_at j.created_at then some k else some j
    else r

/-- `SELECT * FROM jobs WHERE state='processing' ORDER BY updated_at DESC
LIMIT 1` (the read-back of `_claim_one_job`): the first row in table order
among the processing rows of maximal `updated_at`. -/
def selectLatestProcessing : List Job → Option Job
  | [] => none
  | j :: rest =>
    let r := selectLatestProcessing rest
    if j.state = "processing" then
      match r with
      | none => some j
      | some k => if textLt j.updated_at k.updated_at then some k else some j
    else r

/-- The row update performed by `_claim_one_job`'s `UPDATE`:
`state='processing', attempts = attempts + 1, updated_at = now`. -/
def claimedVersion (j : Job) (now : String) : Job :=
  { j with state := "processing", attempts := j.attempts + 1, updated_at := now }

/-- The effect of `_claim_one_job`'s `UPDATE ... WHERE id = ?` on one
row of the table. -/
def claimUpd (jid now : String) (k : Job) : Job :=
  if k.id = jid then claimedVersion k now else k

/-- `_claim_one_job` (`worker_core.py`): one atomic `UPDATE` against the
row whose `id` the subquery returns (every row with that `id`, as SQL
does), then — when a row was hit — the read-back `SELECT`.  Returns the
updated table and the row the read-back fetched (`None` when `rowcount`
was 0, i.e. no pending row existed). -/
def claim_one_job (S : List Job) (now : String) : List Job × Option Job :=
  match selectOldestPending S with
  | none => (S, none)
  | some j =>
    let S' := S.map (claimUpd j.id now)
    (S', selectLatestProcessing S')

/-- The keyword arguments `_update_job_state` is called with in this
code base: each field is `none` when the kwarg is absent, `some v` when
present with value `v` (itself an `Option` for nullable columns). -/
structure UpdateKw where
  result : Option (Option String)
  last_error : Option (Option String)
  attempts : Option Int
  deriving DecidableEq, Repr

/-- No keyword arguments. -/
def UpdateKw.none3 : UpdateKw := ⟨none, none, none⟩

/-- Apply `_update_job_state`'s `SET` clause to one row: `state` and
`updated_at` are always set, each present kwarg is set as-is. -/
def applyUpdate (kw : UpdateKw) (st now : String) (j : Job) : Job :=
  let j := { j with state := st }
  let j := match kw.result with | none => j | some v => { j with result := v }
  let j := match kw.last_error with | none => j | some v => { j with last_error := v }
  let j := match kw.attempts with | none => j | some v => { j with attempts := v }
  { j with updated_at := now }

/-- `_update_job_state(job_id, state, **kwargs)` (`worker_core.py`):
`UPDATE jobs SET state=?, <kwargs>, updated_at=? WHERE id=?`.  It checks
nothing about the row's current state. -/
def update_job_state (S : List Job) (job_id st now : String) (kw : UpdateKw) :
    List Job :=
  S.map (fun j => if j.id = job_id then applyUpdate kw st now j else j)

/-- `_retry_job_in_db` (`dlq.py`):
`UPDATE jobs SET state='pending', attempts=0, last_error=NULL, updated_at=?
WHERE id=? AND state='dead'`; returns `bool(rowcount)`. -/
def retry_job_in_db (S : List Job) (job_id now : String) : List Job × Bool :=
  let S' := S.map (fun j =>
    if j.id = job_id ∧ j.state = "dead" then
      { j with state := "pending", attempts := 0, last_error := none,
               updated_at := now }
    else j)
  (S', S.any (fun j => j.id == job_id && j.state == "dead"))

/-- `insert_job` (`models.py`): `INSERT INTO jobs ... VALUES ...`,
appending a row to the table. -/
def insert_job (S : List Job) (j : Job) : List Job := S ++ [j]

/-- The `enqueue` command (`enqueue.py`) reduced to its store effect:
with the resolved command string, job id, `max_retries` and timestamp,
it aborts (`SystemExit(1)` after "Missing 'command'") when the command
is falsy (empty), and otherwise inserts `Job(id, command, max_retries)`.
Returns the table together with the outcome. -/
def enqueue (S : List Job) (cmd job_id : String) (mr : Int) (ts : String) :
    List Job × Except String String :=
  if cmd = "" then (S, .error "Missing 'command'.")
  else (insert_job S (Job.make job_id cmd mr ts), .ok job_id)

/-- Python's ASCII whitespace, as stripped by `str.strip()`. -/
def pyWs (c : Char) : Bool :=
  c == ' ' || c == '\t' || c == '\n' || c == '\r' || c == '\x0b' || c == '\x0c'

/-- Python's `str.strip()`: drop leading and trailing whitespace. -/
def pyStrip (s : String) : String :=
  ⟨((s.data.dropWhile pyWs).reverse.dropWhile pyWs).reverse⟩

/-- Python's `s[:n]` on a string: the first `n` characters. -/
def pyTake (s : String) (n : Nat) : String := ⟨s.data.take n⟩

/-- The error summary of a failed run (`worker_core.py`):
`(stderr or "").strip() or f"exit_code={exit_code}"`. -/
def err_summary (exit_code : Int) (stderr : String) : String :=
  let e := pyStrip stderr
  if e = "" then "exit_code=" ++ toString exit_code else e

/-- The stored result text of a successful run (`worker_core.py`):
`(stdout or "").strip()`, then `result_text[:65500] + "...(truncated)"`
when longer than 65500 characters (Python `len` and slicing count code
points, as `String.length`/`pyTake` do). -/
def truncate_result (stdout : String) : String :=
  let t := pyStrip stdout
  if t.length > 65500 then pyTake t 65500 ++ "...(truncated)" else t

/-- The backoff delay before a requeue (`worker_core.py`):
`delay = backoff_base ** attempts; delay = min(delay, 24 * 3600)`.
Python's float arithmetic is modelled exactly over `ℚ`. -/
def backoffDelay (base : ℚ) (attempts : Int) : ℚ :=
  let delay := base ^ attempts
  let max_delay : ℚ := 24 * 3600
  min delay max_delay

/-- The inputs one iteration of `worker_loop`'s `while` body consumes
from the outside world: the wall-clock value at the claiming `UPDATE`
and at the closing `UPDATE`, the behaviour of `subprocess.run` on a
command string, the backoff base, and the value of the `_SHOULD_STOP`
flag sampled during the backoff sleep. -/
structure CycleInput where
  tClaim : String
  tUpdate : String
  runner : String → Int × String × String
  base : ℚ
  stop : Bool

/-- What one iteration of `worker_loop` did. -/
inductive CycleOutcome where
  | idle : CycleOutcome
  | completed : String → CycleOutcome
  | requeued : String → ℚ → CycleOutcome
  | stoppedRequeue : String → CycleOutcome
  | died : String → CycleOutcome
  deriving DecidableEq, Repr

/-- One iteration of `worker_loop`'s `while` body (`worker_core.py`):
claim a job; if none, poll again (`idle`).  Otherwise run its command.
On exit code 0, mark it `completed` with the truncated stdout, clearing
`last_error` and (re)writing `attempts`.  On failure, when
`attempts < max_retries` sleep the backoff delay — if `_SHOULD_STOP` was
set during the sleep, write the job back to `pending` with no kwargs and
break; otherwise requeue it to `pending` with `last_error` set — and
when retries are exhausted mark it `dead` with `last_error` set.
All column values are taken from the dict the claim returned. -/
def worker_cycle (S : List Job) (inp : CycleInput) : List Job × CycleOutcome :=
  let p := claim_one_job S inp.tClaim
  match p.2 with
  | none => (p.1, .idle)
  | some job =>
    let r := inp.runner job.command
    let exit_code := r.1
    if exit_code = 0 then
      (update_job_state p.1 job.id "completed" inp.tUpdate
        ⟨some (some (truncate_result r.2.1)), some none, some job.attempts⟩,
       .completed job.id)
    else
      let err := err_summary exit_code r.2.2
      if job.attempts < job.max_retries then
        if inp.stop then
          (update_job_state p.1 job.id "pending" inp.tUpdate UpdateKw.none3,
           .stoppedRequeue job.id)
        else
          (update_job_state p.1 job.id "pending" inp.tUpdate
            ⟨none, some (some err), none⟩,
           .requeued job.id (backoffDelay inp.base job.attempts))
      else
        (update_job_state p.1 job.id "dead" inp.tUpdate
          ⟨none, some (some err), none⟩,
         .died job.id)

/-- `worker_loop` (`worker_core.py`) over a finite trace of per-iteration
inputs: runs `worker_cycle` on each input in turn and `break`s out of
the loop when the stop flag was observed during a backoff sleep.
Returns the final table and the outcomes of the iterations that ran. -/
def worker_loop (S : List Job) : List CycleInput → List Job × List CycleOutcome
  | [] => (S, [])
  | inp :: rest =>
    let p := worker_cycle S inp
    match p.2 with
    | .stoppedRequeue id => (p.1, [.stoppedRequeue id])
    | _ =>
      let q := worker_loop p.1 rest
      (q.1, p.2 :: q.2)

/-! ## Order theory of the `TEXT` comparison -/

theorem charListLt_irrefl (as : List Char) : charListLt as as = false := by
  induction as with
  | nil => rfl
  | cons a as ih => simp [charListLt, lt_irrefl, ih]

theorem charListLt_asymm : ∀ as bs : List Char,
    charListLt as bs = true → charListLt bs as = false := by
  intro as
  induction as with
  | nil =>
    intro bs h
    cases bs with
    | nil => simp [charListLt] at h
    | cons b bs => rfl
  | cons a as ih =>
    intro bs h
    cases bs with
    | nil => simp [charListLt] at h
    | cons b bs =>
      simp only [charListLt] at h ⊢
      by_cases hab : a < b
      · simp [hab, lt_asymm hab]
      · by_cases hba : b < a
        · simp [hab, hba] at h
        · simp only [hab, hba, if_false] at h ⊢
          exact ih bs h

theorem charListLt_trans : ∀ as bs cs : List Char,
    charListLt as bs = true → charListLt bs cs = true → charListLt as cs = true := by
  intro as
  induction as with
  | nil =>
    intro bs cs h1 h2
    cases bs with
    | nil => simp [charListLt] at h1
    | cons b bs =>
      cases cs with
      | nil => simp [charListLt] at h2
      | cons c cs => rfl
  | cons a as ih =>
    intro bs cs h1 h2
    cases bs with
    | nil => simp [charListLt] at h1
    | cons b bs =>
      cases cs with
      | nil => simp [charListLt] at h2
      | cons c cs =>
        simp only [charListLt] at h1 h2 ⊢
        by_cases hab : a < b
        · by_cases hbc : b < c
          · simp [lt_trans hab hbc]
          · by_cases hcb : c < b
            · simp [hbc, hcb] at h2
            · have hbc' : b = c := le_antisymm (not_lt.mp hcb) (not_lt.mp hbc)
              subst hbc'
              simp [hab]
        · by_cases hba : b < a
          · simp [hab, hba] at h1
          · have hab' : a = b := le_antisymm (not_lt.mp hba) (not_lt.mp hab)
            subst hab'
            simp only [hab, hba, if_false] at h1
            by_cases hac : a < c
            · simp [hac]
            · by_cases hca : c < a
              · simp [hac, hca] at h2
              · have hac' : a = c := le_antisymm (not_lt.mp hca) (not_lt.mp hac)
                subst hac'
                simp only [hac, hca, if_false] at h2 ⊢
                exact ih bs cs h1 h2

theorem charListLt_conn : ∀ as bs : List Char,
    charListLt as bs = false → charListLt bs as = false → as = bs := by
  intro as
  induction as with
  | nil =>
    intro bs h1 _
    cases bs with
    | nil => rfl
    | cons b bs => simp [charListLt] at h1
  | cons a as ih =>
    intro bs h1 h2
    cases bs with
    | nil => simp [charListLt] at h2
    | cons b bs =>
      simp only [charListLt] at h1 h2
      by_cases hab : a < b
      · simp [hab] at h1
      · by_cases hba : b < a
        · simp [hba] at h2
        · have hab' : a = b := le_antisymm (not_lt.mp hba) (not_lt.mp hab)
          subst hab'
          simp only [hab, hba, if_false] at h1 h2
          rw [ih bs h1 h2]

theorem textLt_irrefl (s : String) : textLt s s = false := charListLt_irrefl _

theorem textLt_asymm {a b : String} (h : textLt a b = true) : textLt b a = false :=
  charListLt_asymm _ _ h

theorem textLt_trans {a b c : String} (h1 : textLt a b = true)
    (h2 : textLt b c = true) : textLt a c = true :=
  charListLt_trans _ _ _ h1 h2

theorem textLt_conn {a b : String} (h1 : textLt a b = false)
    (h2 : textLt b a = false) : a = b := by
  cases a with
  | mk da =>
    cases b with
    | mk db => exact congrArg String.mk (charListLt_conn da db h1 h2)

/-! ## Characterisation of the two `SELECT ... LIMIT 1` queries -/

theorem selectOldestPending_eq_none {S : List Job} :
    selectOldestPending S = none ↔ ∀ j ∈ S, j.state ≠ "pending" := by
  induction S with
  | nil => simp [selectOldestPending]
  | cons a rest ih =>
    simp only [selectOldestPending]
    by_cases ha : a.state = "pending"
    · rcases h : selectOldestPending rest with _ | k
      · simp [ha, h]
      · simp only [ha, if_true, h]
        split <;> simp [ha]
    · simp [ha, ih]

theorem selectOldestPending_mem : ∀ {S : List Job} {j : Job},
    selectOldestPending S = some j → j ∈ S ∧ j.state = "pending" := by
  intro S
  induction S with
  | nil => intro j h; simp [selectOldestPending] at h
  | cons a rest ih =>
    intro j h
    simp only [selectOldestPending] at h
    by_cases ha : a.state = "pending"
    · rcases hr : selectOldestPending rest with _ | k
      · rw [hr] at h
        simp only [ha, if_true] at h
        cases h
        exact ⟨List.mem_cons_self _ _, ha⟩
      · rw [hr] at h
        simp only [ha, if_true] at h
        split at h
        · cases h
          rcases ih hr with ⟨hm, hp⟩
          exact ⟨List.mem_cons_of_mem _ hm, hp⟩
        · cases h
          exact ⟨List.mem_cons_self _ _, ha⟩
    · simp only [ha, if_false] at h
      rcases ih h with ⟨hm, hp⟩
      exact ⟨List.mem_cons_of_mem _ hm, hp⟩

theorem selectOldestPending_min : ∀ (S : List Job) (j : Job),
    selectOldestPending S = some j →
    ∀ k ∈ S, k.state = "pending" → textLt k.created_at j.created_at = false := by
  intro S
  induction S with
  | nil => intro j h; simp [selectOldestPending] at h
  | cons a rest ih =>
    intro j h k hk hkp
    simp only [selectOldestPending] at h
    by_cases ha : a.state = "pending"
    · rcases hr : selectOldestPending rest with _ | k0
      · rw [hr] at h
        simp only [ha, if_true] at h
        cases h
        rcases List.mem_cons.mp hk with rfl | hk'
        · exact textLt_irrefl _
        · exact absurd hkp (selectOldestPending_eq_none.mp hr k hk')
      · rw [hr] at h
        simp only [ha, if_true] at h
        by_cases hlt : textLt k0.created_at a.created_at = true
        · rw [if_pos hlt] at h
          injection h with hj
          subst hj
          rcases List.mem_cons.mp hk with rfl | hk'
          · exact textLt_asymm hlt
          · exact ih k0 hr k hk' hkp
        · rw [if_neg hlt] at h
          injection h with hj
          subst hj
          rcases List.mem_cons.mp hk with rfl | hk'
          · exact textLt_irrefl _
          · have h1 : textLt k.created_at k0.created_at = false := ih k0 hr k hk' hkp
            by_cases hx : textLt k.created_at a.created_at = true
            · exfalso
              by_cases hy : textLt k0.created_at k.created_at = true
              · exact absurd (textLt_trans hy hx) (by simpa using hlt)
              · have he : k.created_at = k0.created_at :=
                  textLt_conn h1 (by simpa using hy)
                rw [he] at hx
                exact absurd hx (by simpa using hlt)
            · simpa using hx
    · simp only [ha, if_false] at h
      rcases List.mem_cons.mp hk with rfl | hk'
      · exact absurd hkp ha
      · exact ih j h k hk' hkp

theorem selectOldestPending_first : ∀ (S : List Job) (j : Job),
    selectOldestPending S = some j →
    ∃ l1 l2, S = l1 ++ j :: l2 ∧
      ∀ k ∈ l1, k.state = "pending" → textLt j.created_at k.created_at = true := by
  intro S
  induction S with
  | nil => intro j h; simp [selectOldestPending] at h
  | cons a rest ih =>
    intro j h
    simp only [selectOldestPending] at h
    by_cases ha : a.state = "pending"
    · rcases hr : selectOldestPending rest with _ | k0
      · rw [hr] at h
        simp only [ha, if_true] at h
        cases h
        exact ⟨[], rest, rfl, by simp⟩
      · rw [hr] at h
        simp only [ha, if_true] at h
        by_cases hlt : textLt k0.created_at a.created_at = true
        · rw [if_pos hlt] at h
          injection h with hj
          subst hj
          rcases ih k0 hr with ⟨l1, l2, hsplit, hgt⟩
          refine ⟨a :: l1, l2, by simp [hsplit], ?_⟩
          intro k hk hkp
          rcases List.mem_cons.mp hk with rfl | hk'
          · exact hlt
          · exact hgt k hk' hkp
        · rw [if_neg hlt] at h
          cases h
          exact ⟨[], rest, rfl, by simp⟩
    · simp only [ha, if_false] at h
      rcases ih j h with ⟨l1, l2, hsplit, hgt⟩
      refine ⟨a :: l1, l2, by simp [hsplit], ?_⟩
      intro k hk hkp
      rcases List.mem_cons.mp hk with rfl | hk'
      · exact absurd hkp ha
      · exact hgt k hk' hkp

theorem selectLatestProcessing_eq_none {S : List Job} :
    selectLatestProcessing S = none ↔ ∀ j ∈ S, j.state ≠ "processing" := by
  induction S with
  | nil => simp [selectLatestProcessing]
  | cons a rest ih =>
    simp only [selectLatestProcessing]
    by_cases ha : a.state = "processing"
    · rcases h : selectLatestProcessing rest with _ | k
      · simp [ha, h]
      · simp only [ha, if_true, h]
        split <;> simp [ha]
    · simp [ha, ih]

theorem selectLatestProcessing_mem : ∀ {S : List Job} {j : Job},
    selectLatestProcessing S = some j → j ∈ S ∧ j.state = "processing" := by
  intro S
  induction S with
  | nil => intro j h; simp [selectLatestProcessing] at h
  | cons a rest ih =>
    intro j h
    simp only [selectLatestProcessing] at h
    by_cases ha : a.state = "processing"
    · rcases hr : selectLatestProcessing rest with _ | k
      · rw [hr] at h
        simp only [ha, if_true] at h
        cases h
        exact ⟨List.mem_cons_self _ _, ha⟩
      · rw [hr] at h
        simp only [ha, if_true] at h
        split at h
        · cases h
          rcases ih hr with ⟨hm, hp⟩
          exact ⟨List.mem_cons_of_mem _ hm, hp⟩
        · cases h
          exact ⟨List.mem_cons_self _ _, ha⟩
    · simp only [ha, if_false] at h
      rcases ih h with ⟨hm, hp⟩
      exact ⟨List.mem_cons_of_mem _ hm, hp⟩

/-- When one processing row strictly dominates every other processing row
in `updated_at`, the read-back query returns exactly that row. -/
theorem selectLatestProcessing_eq_of_strict_max : ∀ (S : List Job) (j : Job),
    j ∈ S → j.state = "processing" →
    (∀ k ∈ S, k.state = "processing" → textLt j.updated_at k.updated_at = false) →
    (∀ k ∈ S, k.state = "processing" → k.updated_at = j.updated_at → k = j) →
    selectLatestProcessing S = some j := by
  intro S
  induction S with
  | nil => intro j hm; simp at hm
  | cons a rest ih =>
    intro j hm hp hmax huniq
    simp only [selectLatestProcessing]
    by_cases hja : j = a
    · subst hja
      simp only [hp, if_true]
      rcases hr : selectLatestProcessing rest with _ | k
      · rfl
      · rcases selectLatestProcessing_mem hr with ⟨hkm, hkp⟩
        have hle : textLt j.updated_at k.updated_at = false :=
          hmax k (List.mem_cons_of_mem _ hkm) hkp
        simp [hle]
    · have hm' : j ∈ rest := by
        rcases List.mem_cons.mp hm with rfl | h'
        · exact absurd rfl hja
        · exact h'
      have hr : selectLatestProcessing rest = some j :=
        ih j hm' hp
          (fun k hk hkp => hmax k (List.mem_cons_of_mem _ hk) hkp)
          (fun k hk hkp he => huniq k (List.mem_cons_of_mem _ hk) hkp he)
      by_cases ha : a.state = "processing"
      · simp only [ha, if_true, hr]
        by_cases hlt : textLt a.updated_at j.updated_at = true
        · rw [if_pos hlt]
        · exfalso
          have h1 : textLt j.updated_at a.updated_at = false :=
            hmax a (List.mem_cons_self _ _) ha
          have h2 : a.updated_at = j.updated_at :=
            textLt_conn (by simpa using hlt) h1
          exact hja ((huniq a (List.mem_cons_self _ _) ha h2).symm)
      · simp only [ha, if_false]
        exact hr

/-! ## Row-wise helper lemmas -/

theorem map_eq_self_of_id (f : Job → Job) (S : List Job)
    (h : ∀ x ∈ S, f x = x) : S.map f = S := by
  induction S with
  | nil => rfl
  | cons a as ih =>
    simp only [List.map_cons, h a (by simp)]
    rw [ih (fun x hx => h x (by simp [hx]))]

theorem claimUpd_preserves_id (jid now : String) (k : Job) :
    (claimUpd jid now k).id = k.id := by
  unfold claimUpd claimedVersion
  split <;> rfl

theorem claimedVersion_last_error (k : Job) (now : String) :
    (claimedVersion k now).last_error = k.last_error := rfl

/-! ## Concrete stores used by counterexamples and witnesses -/

/-- A job sitting in `processing` whose `updated_at` lies after the
claim timestamp `"t5"` (e.g. written by a concurrent worker, a skewed
clock, or a crashed worker's leftover). -/
def jStuck : Job :=
  { id := "a", command := "c1", state := "processing", attempts := 1,
    max_retries := 3, created_at := "t0", updated_at := "t9",
    last_error := none, result := none }

/-- The pending job the claim subquery selects. -/
def jWait : Job := Job.make "b" "c2" 3 "t1"

/-- Inserted first: `pending`, id `"b"`, `created_at "t1"`. -/
def jTieFirst : Job := Job.make "b" "c1" 3 "t1"

/-- Inserted second: `pending`, the smaller id `"a"`, same `created_at`. -/
def jTieSecond : Job := Job.make "a" "c2" 3 "t1"

/-- A plain pending job. -/
def jPend : Job := Job.make "p1" "cmd" 3 "t0"

/-- A single pending job used by witnesses. -/
def jSolo : Job := Job.make "s" "cmd" 3 "t0"

/-! ## C1 — `_claim_one_job` -/

/-- C1 counterexample: on the store `[jStuck, jWait]` at claim time
`"t5"`, `_claim_one_job` transitions the pending job `jWait` (state
`processing`, attempts incremented), but the record it returns is
`jStuck` — a different job — because the read-back picks the processing
row with the greatest `updated_at`. -/
theorem c1_readback_returns_wrong_job :
    claim_one_job [jStuck, jWait] "t5" =
      ([jStuck, claimedVersion jWait "t5"], some jStuck) ∧
    jWait.state = "pending" ∧
    (claimedVersion jWait "t5").state = "processing" ∧
    (claimedVersion jWait "t5").attempts = jWait.attempts + 1 ∧
    jStuck.id ≠ jWait.id := by decide

/-- C1 (amended): when no pending job exists, `_claim_one_job` returns
`none` and changes nothing.  When the subquery selects the pending job
`j`, exactly the rows carrying `j.id` (one row, `id` being the primary
key) are transitioned to `processing` with `attempts` incremented, every
other row is untouched, and the returned record is the first processing
row of greatest `updated_at` — which is the transitioned job itself
whenever every other processing row's `updated_at` is strictly below the
claim timestamp, but not in general. -/
theorem c1_claim_next_amended (S : List Job) (now : String) :
    ((∀ j ∈ S, j.state ≠ "pending") → claim_one_job S now = (S, none)) ∧
    (∀ j, selectOldestPending S = some j →
      claim_one_job S now =
        (S.map (claimUpd j.id now), selectLatestProcessing (S.map (claimUpd j.id now))) ∧
      ((S.map (claimUpd j.id now)).length = S.length ∧
       ∀ (i : Nat) (h : i < S.length) (h' : i < (S.map (claimUpd j.id now)).length),
         (S[i].id = j.id → (S.map (claimUpd j.id now))[i] = claimedVersion S[i] now) ∧
         (S[i].id ≠ j.id → (S.map (claimUpd j.id now))[i] = S[i])) ∧
      ((S.map Job.id).Nodup →
       (∀ k ∈ S.map (claimUpd j.id now), k.state = "processing" → k.id ≠ j.id →
          textLt k.updated_at now = true) →
       selectLatestProcessing (S.map (claimUpd j.id now)) = some (claimedVersion j now))) := by
  constructor
  · intro hno
    have h0 : selectOldestPending S = none := selectOldestPending_eq_none.mpr hno
    simp [claim_one_job, h0]
  · intro j hj
    refine ⟨by simp [claim_one_job, hj], ⟨by simp, ?_⟩, ?_⟩
    · intro i h h'
      constructor
      · intro hc
        simp [claimUpd, hc]
      · intro hc
        simp [claimUpd, hc]
    · intro hnodup hdom
      obtain ⟨hjmem, hjp⟩ := selectOldestPending_mem hj
      have hupd : claimUpd j.id now j = claimedVersion j now := by simp [claimUpd]
      have hmem : claimedVersion j now ∈ S.map (claimUpd j.id now) :=
        hupd ▸ List.mem_map_of_mem _ hjmem
      apply selectLatestProcessing_eq_of_strict_max
      · exact hmem
      · rfl
      · intro k hk hkp
        show textLt (claimedVersion j now).updated_at k.updated_at = false
        obtain ⟨a, ha, rfl⟩ := List.mem_map.mp hk
        by_cases haid : a.id = j.id
        · have h2 : (claimUpd j.id now a).updated_at = now := by
            simp [claimUpd, haid, claimedVersion]
          rw [h2]
          exact textLt_irrefl _
        · have hka : claimUpd j.id now a = a := by simp [claimUpd, haid]
          rw [hka] at hk hkp ⊢
          exact textLt_asymm (hdom a hk hkp haid)
      · intro k hk hkp hke
        obtain ⟨a, ha, rfl⟩ := List.mem_map.mp hk
        by_cases haid : a.id = j.id
        · have haj : a = j := List.inj_on_of_nodup_map hnodup ha hjmem haid
          subst haj
          simp [claimUpd]
        · have hka : claimUpd j.id now a = a := by simp [claimUpd, haid]
          rw [hka] at hk hkp hke ⊢
          have hlta := hdom a hk hkp haid
          have hnow : a.updated_at = now := hke
          rw [hnow] at hlta
          exact absurd hlta (by simp [textLt_irrefl])

/-- C1 witness: on a one-job store the amendment yields the full
happy-path behaviour, returned record included. -/
theorem c1_claim_next_amended_witness :
    claim_one_job [jSolo] "t1" =
      ([claimedVersion jSolo "t1"], some (claimedVersion jSolo "t1")) := by
  obtain ⟨heq, -, hdom⟩ :=
    (c1_claim_next_amended [jSolo] "t1").2 jSolo (by decide)
  have hsel := hdom (by decide) (by decide)
  rw [heq, hsel]
  decide

/-! ## C2 — selection order of the claim subquery -/

/-- C2 counterexample: two pending jobs share the least `created_at`;
the subquery (and hence `claim_next`) picks the first row in table
order, whose id `"b"` is NOT the smallest id — the job with the
strictly smaller id `"a"` is passed over. -/
theorem c2_tie_not_broken_by_id :
    selectOldestPending [jTieFirst, jTieSecond] = some jTieFirst ∧
    (claim_one_job [jTieFirst, jTieSecond] "t2").2 =
      some (claimedVersion jTieFirst "t2") ∧
    jTieSecond.state = "pending" ∧
    jTieSecond.created_at = jTieFirst.created_at ∧
    textLt jTieSecond.id jTieFirst.id = true ∧
    jTieFirst.id ≠ jTieSecond.id := by decide

/-- C2 (amended): the job selected by the claim subquery is always a
pending job with minimal `created_at`; among several pending jobs with
the same minimal `created_at` the first one in table (insertion) order
is selected — the tie is NOT broken by `id`.  This still makes
consecutive claims follow a deterministic total order over pending
jobs, just not the id-ordered one. -/
theorem c2_oldest_pending_selected (S : List Job) (j : Job)
    (h : selectOldestPending S = some j) :
    j ∈ S ∧ j.state = "pending" ∧
    (∀ k ∈ S, k.state = "pending" → textLt k.created_at j.created_at = false) ∧
    (∃ l1 l2, S = l1 ++ j :: l2 ∧
      ∀ k ∈ l1, k.state = "pending" → textLt j.created_at k.created_at = true) := by
  obtain ⟨hm, hp⟩ := selectOldestPending_mem h
  exact ⟨hm, hp, selectOldestPending_min S j h, selectOldestPending_first S j h⟩

/-- C2 witness: the amended selection property, evaluated on the
two-job tie store. -/
theorem c2_oldest_pending_selected_witness :
    jTieFirst ∈ [jTieFirst, jTieSecond] ∧
    jTieFirst.state = "pending" ∧
    (∀ k ∈ [jTieFirst, jTieSecond], k.state = "pending" →
      textLt k.created_at jTieFirst.created_at = false) ∧
    (∃ l1 l2, [jTieFirst, jTieSecond] = l1 ++ jTieFirst :: l2 ∧
      ∀ k ∈ l1, k.state = "pending" → textLt jTieFirst.created_at k.created_at = true) :=
  c2_oldest_pending_selected [jTieFirst, jTieSecond] jTieFirst (by decide)

/-! ## C3 — no `StateConflict`: `_update_job_state` never rejects -/

/-- C3 counterexample: completing a `pending` job — an illegal
transition per the spec's state machine — mutates the record (to
`completed`) instead of signalling `StateConflict` and leaving it
untouched.  No `StateConflict` exists anywhere in the code. -/
theorem c3_illegal_transition_mutates :
    jPend.state = "pending" ∧
    update_job_state [jPend] "p1" "completed" "t1"
        ⟨some (some "out"), some none, some 0⟩ =
      [{ jPend with
          state := "completed"
          result := some "out"
          last_error := none
          attempts := 0
          updated_at := "t1" }] ∧
    update_job_state [jPend] "p1" "completed" "t1"
        ⟨some (some "out"), some none, some 0⟩ ≠ [jPend] := by decide

/-- C3 (amended): `_update_job_state` applies the requested state (and
kwargs) unconditionally to every row carrying the given id, whatever
state that row is currently in; rows with other ids are untouched.  No
legality check is performed and no `StateConflict` error exists. -/
theorem c3_update_unconditional (S : List Job) (jid st now : String) (kw : UpdateKw) :
    (update_job_state S jid st now kw).length = S.length ∧
    ∀ (i : Nat) (h : i < S.length) (h' : i < (update_job_state S jid st now kw).length),
      (S[i].id ≠ jid → (update_job_state S jid st now kw)[i] = S[i]) ∧
      (S[i].id = jid →
        (update_job_state S jid st now kw)[i] = applyUpdate kw st now S[i] ∧
        ((update_job_state S jid st now kw)[i]).state = st) := by
  refine ⟨by simp [update_job_state], ?_⟩
  intro i h h'
  constructor
  · intro hc
    simp [update_job_state, hc]
  · intro hc
    constructor
    · simp [update_job_state, hc]
    · have hval : (update_job_state S jid st now kw)[i] =
          applyUpdate kw st now S[i] := by
        simp [update_job_state, hc]
      rw [hval]
      rcases kw with ⟨r, e, a⟩
      cases r <;> cases e <;> cases a <;> rfl

/-- C3 witness: the unconditional update, evaluated at the pending job
and the illegal `completed` target. -/
theorem c3_update_unconditional_witness :
    ((update_job_state [jPend] "p1" "completed" "t1"
        ⟨some (some "out"), some none, some 0⟩).get ⟨0, by decide⟩).state =
      "completed" := by
  have h := (c3_update_unconditional [jPend] "p1" "completed" "t1"
    ⟨some (some "out"), some none, some 0⟩).2 0 (by decide) (by decide)
  exact (h.2 (by decide)).2

/-! ## C5 — `_retry_job_in_db` (revive) -/

/-- A dead job used by the C5 witness. -/
def jDead : Job :=
  { id := "d", command := "cmd", state := "dead", attempts := 3,
    max_retries := 3, created_at := "t0", updated_at := "t7",
    last_error := some "boom", result := none }

/-- C5: `revive` returns true exactly when a row with the given id is
currently `dead`; every such row becomes `pending` with `attempts = 0`
and `last_error` cleared (and a fresh `updated_at`), all its other
fields untouched; when it returns false — wrong state or unknown id —
no row of the table changes at all. -/
theorem c5_revive (S : List Job) (job_id now : String) :
    ((retry_job_in_db S job_id now).2 = true ↔
      ∃ j ∈ S, j.id = job_id ∧ j.state = "dead") ∧
    ((retry_job_in_db S job_id now).2 = false →
      (retry_job_in_db S job_id now).1 = S) ∧
    (retry_job_in_db S job_id now).1.length = S.length ∧
    ∀ (i : Nat) (h : i < S.length) (h' : i < (retry_job_in_db S job_id now).1.length),
      (¬(S[i].id = job_id ∧ S[i].state = "dead") →
        (retry_job_in_db S job_id now).1[i] = S[i]) ∧
      (S[i].id = job_id ∧ S[i].state = "dead" →
        (retry_job_in_db S job_id now).1[i] =
          { S[i] with
              state := "pending"
              attempts := 0
              last_error := none
              updated_at := now }) := by
  refine ⟨?_, ?_, by simp [retry_job_in_db], ?_⟩
  · simp [retry_job_in_db, List.any_eq_true]
  · intro h2
    have hno : ∀ x ∈ S, ¬(x.id = job_id ∧ x.state = "dead") := by
      intro x hx hcon
      have : (retry_job_in_db S job_id now).2 = true := by
        simp [retry_job_in_db, List.any_eq_true]
        exact ⟨x, hx, hcon.1, hcon.2⟩
      rw [this] at h2
      cases h2
    apply map_eq_self_of_id
    intro x hx
    simp [hno x hx]
  · intro i h h'
    constructor
    · intro hc
      simp [retry_job_in_db, hc]
    · intro hc
      simp [retry_job_in_db, hc]

/-- C5 witness: reviving the dead job, and the no-op on a non-dead
job. -/
theorem c5_revive_witness :
    (retry_job_in_db [jDead] "d" "t9").2 = true ∧
    ((retry_job_in_db [jPend] "p1" "t9").2 = false →
      (retry_job_in_db [jPend] "p1" "t9").1 = [jPend]) :=
  ⟨((c5_revive [jDead] "d" "t9").1).mpr ⟨jDead, by decide, by decide, by decide⟩,
   (c5_revive [jPend] "p1" "t9").2.1⟩

/-! ## C9 — `enqueue` -/

/-- C9: with a non-empty command, `enqueue` appends a job in state
`pending` with `attempts = 0` and the given command and `max_retries`;
with an empty command it fails before inserting anything, leaving the
table untouched.  (The code signals the failure by printing
"Missing 'command'." and raising `SystemExit(1)`; the spec calls this
its `ValidationError`.) -/
theorem c9_enqueue (S : List Job) (cmd job_id : String) (mr : Int) (ts : String) :
    (cmd = "" →
      enqueue S cmd job_id mr ts = (S, Except.error "Missing 'command'.")) ∧
    (cmd ≠ "" →
      enqueue S cmd job_id mr ts =
        (S ++ [Job.make job_id cmd mr ts], Except.ok job_id) ∧
      (Job.make job_id cmd mr ts).state = "pending" ∧
      (Job.make job_id cmd mr ts).attempts = 0 ∧
      (Job.make job_id cmd mr ts).command = cmd ∧
      (Job.make job_id cmd mr ts).max_retries = mr) := by
  constructor
  · intro h
    simp [enqueue, h]
  · intro h
    exact ⟨by simp [enqueue, insert_job, h], rfl, rfl, rfl, rfl⟩

/-- C9 witness: the rejected empty command and an accepted one. -/
theorem c9_enqueue_witness :
    enqueue [] "" "x1" 3 "t0" = ([], Except.error "Missing 'command'.") ∧
    enqueue [] "echo hi" "x1" 3 "t0" =
      ([Job.make "x1" "echo hi" 3 "t0"], Except.ok "x1") :=
  ⟨(c9_enqueue [] "" "x1" 3 "t0").1 rfl,
   ((c9_enqueue [] "echo hi" "x1" 3 "t0").2 (by decide)).1⟩

/-! ## Worker-cycle branch lemmas -/

/-- Success branch of the `while` body. -/
theorem worker_cycle_success (S : List Job) (inp : CycleInput) (j : Job)
    (h : (claim_one_job S inp.tClaim).2 = some j)
    (h0 : (inp.runner j.command).1 = 0) :
    worker_cycle S inp =
      (update_job_state (claim_one_job S inp.tClaim).1 j.id "completed" inp.tUpdate
        ⟨some (some (truncate_result (inp.runner j.command).2.1)), some none,
         some j.attempts⟩,
       CycleOutcome.completed j.id) := by
  simp [worker_cycle, h, h0]

/-- Failure branch with retries left and no stop request. -/
theorem worker_cycle_requeue (S : List Job) (inp : CycleInput) (j : Job)
    (h : (claim_one_job S inp.tClaim).2 = some j)
    (hf : (inp.runner j.command).1 ≠ 0)
    (hl : j.attempts < j.max_retries)
    (hs : inp.stop = false) :
    worker_cycle S inp =
      (update_job_state (claim_one_job S inp.tClaim).1 j.id "pending" inp.tUpdate
        ⟨none, some (some (err_summary (inp.runner j.command).1
                             (inp.runner j.command).2.2)), none⟩,
       CycleOutcome.requeued j.id (backoffDelay inp.base j.attempts)) := by
  simp [worker_cycle, h, hf, hl, hs]

/-- Failure branch with retries left, stop flag observed while
sleeping. -/
theorem worker_cycle_stop (S : List Job) (inp : CycleInput) (j : Job)
    (h : (claim_one_job S inp.tClaim).2 = some j)
    (hf : (inp.runner j.command).1 ≠ 0)
    (hl : j.attempts < j.max_retries)
    (hs : inp.stop = true) :
    worker_cycle S inp =
      (update_job_state (claim_one_job S inp.tClaim).1 j.id "pending" inp.tUpdate
        UpdateKw.none3,
       CycleOutcome.stoppedRequeue j.id) := by
  simp [worker_cycle, h, hf, hl, hs, UpdateKw.none3]

/-- Failure branch with retries exhausted. -/
theorem worker_cycle_dead (S : List Job) (inp : CycleInput) (j : Job)
    (h : (claim_one_job S inp.tClaim).2 = some j)
    (hf : (inp.runner j.command).1 ≠ 0)
    (hl : ¬ j.attempts < j.max_retries) :
    worker_cycle S inp =
      (update_job_state (claim_one_job S inp.tClaim).1 j.id "dead" inp.tUpdate
        ⟨none, some (some (err_summary (inp.runner j.command).1
                             (inp.runner j.command).2.2)), none⟩,
       CycleOutcome.died j.id) := by
  simp [worker_cycle, h, hf, hl]

/-! ## C6 — exponential backoff -/

/-- C6: the delay slept before a requeue is `min(base ^ attempts, 86400)`
seconds; with base 2 and (post-claim) attempts 5 it is 32 seconds, and it
never exceeds 86400 (= 24h) for any attempt count. -/
theorem c6_backoff (b : ℚ) (a : ℤ) (_ha : 0 ≤ a) :
    backoffDelay b a = min (b ^ a) 86400 ∧
    backoffDelay b a ≤ 86400 ∧
    backoffDelay 2 5 = 32 := by
  refine ⟨by norm_num [backoffDelay], ?_, ?_⟩
  · have : backoffDelay b a = min (b ^ a) 86400 := by norm_num [backoffDelay]
    rw [this]
    exact min_le_right _ _
  · norm_num [backoffDelay]

/-- C6 witness: base 2, attempts 5 gives 32 seconds. -/
theorem c6_backoff_witness : backoffDelay 2 5 = 32 :=
  (c6_backoff 2 5 (by decide)).2.2

/-! ## Concrete worker scenarios -/

/-- A command run that always fails: exit code 1, stderr `"boom"`. -/
def failRunner : String → Int × String × String := fun _ => (1, "", "boom")

/-- A command run that succeeds printing `hello`. -/
def okRunner : String → Int × String × String := fun _ => (0, "hello\n", "")

/-- Iteration inputs for the always-failing runner, base 2, no stop. -/
def inpF (tc tu : String) : CycleInput := ⟨tc, tu, failRunner, 2, false⟩

/-- Iteration input whose backoff sleep observes the stop flag. -/
def inpStop : CycleInput := ⟨"t1", "t2", failRunner, 2, true⟩

/-- The always-failing job with `max_retries = 3`. -/
def jobF : Job := Job.make "j" "c" 3 "t0"

/-- `jobF` after its first failed cycle. -/
def jFail1 : Job :=
  { id := "j", command := "c", state := "pending", attempts := 1,
    max_retries := 3, created_at := "t0", updated_at := "t2",
    last_error := some "boom", result := none }

/-- `jobF` after its second failed cycle. -/
def jFail2 : Job :=
  { jFail1 with attempts := 2, updated_at := "t4" }

/-- `jobF` after its third failed cycle: dead with `attempts = 3`. -/
def jFailDead : Job :=
  { jFail1 with state := "dead", attempts := 3, updated_at := "t6" }

/-! ## C4 — retry then dead-letter -/

/-- C4: after a failed run the worker marks the job `dead` exactly when
the post-claim attempt count has reached `max_retries`, and requeues it
to `pending` otherwise; an always-failing job with `max_retries = 3`
walks `pending → processing → pending → processing → pending →
processing → dead` and carries `attempts = 3` the moment it dies. -/
theorem c4_retry_then_dead :
    (∀ (S : List Job) (inp : CycleInput) (j : Job),
      (claim_one_job S inp.tClaim).2 = some j →
      (inp.runner j.command).1 ≠ 0 →
      inp.stop = false →
      (((worker_cycle S inp).2 = CycleOutcome.died j.id ↔
          j.max_retries ≤ j.attempts) ∧
       (j.max_retries ≤ j.attempts →
         (worker_cycle S inp).1 =
           update_job_state (claim_one_job S inp.tClaim).1 j.id "dead" inp.tUpdate
             ⟨none, some (some (err_summary (inp.runner j.command).1
                                  (inp.runner j.command).2.2)), none⟩) ∧
       (j.attempts < j.max_retries →
         (worker_cycle S inp).1 =
           update_job_state (claim_one_job S inp.tClaim).1 j.id "pending" inp.tUpdate
             ⟨none, some (some (err_summary (inp.runner j.command).1
                                  (inp.runner j.command).2.2)), none⟩))) ∧
    (jobF.state = "pending" ∧ jobF.attempts = 0 ∧ jobF.max_retries = 3) ∧
    ((claim_one_job [jobF] "t1").1 = [claimedVersion jobF "t1"] ∧
      (claimedVersion jobF "t1").state = "processing" ∧
      (claimedVersion jobF "t1").attempts = 1) ∧
    ((worker_cycle [jobF] (inpF "t1" "t2")).1 = [jFail1] ∧
      jFail1.state = "pending" ∧ jFail1.attempts = 1) ∧
    ((claim_one_job [jFail1] "t3").1 = [claimedVersion jFail1 "t3"] ∧
      (claimedVersion jFail1 "t3").state = "processing" ∧
      (claimedVersion jFail1 "t3").attempts = 2) ∧
    ((worker_cycle [jFail1] (inpF "t3" "t4")).1 = [jFail2] ∧
      jFail2.state = "pending" ∧ jFail2.attempts = 2) ∧
    ((claim_one_job [jFail2] "t5").1 = [claimedVersion jFail2 "t5"] ∧
      (claimedVersion jFail2 "t5").state = "processing" ∧
      (claimedVersion jFail2 "t5").attempts = 3) ∧
    (worker_cycle [jFail2] (inpF "t5" "t6") = ([jFailDead], CycleOutcome.died "j") ∧
      jFailDead.state = "dead" ∧ jFailDead.attempts = 3) := by
  constructor
  · intro S inp j h hf hs
    by_cases hl : j.attempts < j.max_retries
    · have heq := worker_cycle_requeue S inp j h hf hl hs
      refine ⟨?_, ?_, fun _ => by rw [heq]⟩
      · rw [heq]
        constructor
        · intro hx
          cases hx
        · intro hx
          exact absurd hx (not_le.mpr hl)
      · intro hx
        exact absurd hx (not_le.mpr hl)
    · have heq := worker_cycle_dead S inp j h hf hl
      refine ⟨?_, fun _ => by rw [heq], fun hx => absurd hx hl⟩
      rw [heq]
      exact ⟨fun _ => not_lt.mp hl, fun _ => rfl⟩
  · exact ⟨by decide, by decide, by decide, by decide, by decide, by decide,
      by decide⟩

/-- C4 witness: the third failed cycle of the concrete trace dies. -/
theorem c4_retry_then_dead_witness :
    (worker_cycle [jFail2] (inpF "t5" "t6")).2 = CycleOutcome.died "j" := by
  have h := (c4_retry_then_dead.1 [jFail2] (inpF "t5" "t6")
    (claimedVersion jFail2 "t5") (by decide) (by decide) rfl).1
  exact h.mpr (by decide)

/-! ## C7 — successful run stores the (stripped, truncated) stdout -/

/-- C7: a run exiting 0 marks the claimed job `completed`, stores the
captured stdout as `result` — whitespace-stripped, then cut at 65500
characters with the marker `"...(truncated)"` appended, and kept as-is
below the ceiling, so that a command printing `hello` yields
`result = "hello"` — and clears `last_error`. -/
theorem c7_success_stores_result :
    (∀ (S : List Job) (inp : CycleInput) (j : Job),
      (claim_one_job S inp.tClaim).2 = some j →
      (inp.runner j.command).1 = 0 →
      (worker_cycle S inp).2 = CycleOutcome.completed j.id ∧
      (worker_cycle S inp).1 =
        update_job_state (claim_one_job S inp.tClaim).1 j.id "completed" inp.tUpdate
          ⟨some (some (truncate_result (inp.runner j.command).2.1)), some none,
           some j.attempts⟩) ∧
    (∀ (S1 : List Job) (jid now res : String) (att : Int),
      (update_job_state S1 jid "completed" now
          ⟨some (some res), some none, some att⟩).length = S1.length ∧
      ∀ (i : Nat) (h : i < S1.length)
        (h' : i < (update_job_state S1 jid "completed" now
                     ⟨some (some res), some none, some att⟩).length),
        (S1[i].id ≠ jid →
          (update_job_state S1 jid "completed" now
            ⟨some (some res), some none, some att⟩)[i] = S1[i]) ∧
        (S1[i].id = jid →
          (update_job_state S1 jid "completed" now
            ⟨some (some res), some none, some att⟩)[i] =
            { S1[i] with
                state := "completed"
                result := some res
                last_error := none
                attempts := att
                updated_at := now })) ∧
    truncate_result "hello\n" = "hello" ∧
    (∀ s : String, (pyStrip s).length ≤ 65500 → truncate_result s = pyStrip s) ∧
    (∀ s : String, 65500 < (pyStrip s).length →
      truncate_result s = pyTake (pyStrip s) 65500 ++ "...(truncated)") := by
  refine ⟨?_, ?_, by decide, ?_, ?_⟩
  · intro S inp j h h0
    have heq := worker_cycle_success S inp j h h0
    exact ⟨by rw [heq], by rw [heq]⟩
  · intro S1 jid now res att
    refine ⟨by simp [update_job_state], ?_⟩
    intro i h h'
    constructor
    · intro hc
      simp [update_job_state, hc]
    · intro hc
      simp [update_job_state, hc, applyUpdate]
  · intro s hle
    simp only [truncate_result]
    rw [if_neg (by omega)]
  · intro s hgt
    simp only [truncate_result]
    rw [if_pos (by omega)]

/-- C7 witness: a cycle whose command prints `hello` and exits 0. -/
theorem c7_success_stores_result_witness :
    (worker_cycle [jobF] ⟨"t1", "t2", okRunner, 2, false⟩).2 =
      CycleOutcome.completed "j" :=
  ((c7_success_stores_result.1 [jobF] ⟨"t1", "t2", okRunner, 2, false⟩
    (claimedVersion jobF "t1") (by decide) rfl)).1

/-! ## C8 — requeue-for-retry frame -/

/-- C8: the non-exhausted requeue writes `state = "pending"`,
`last_error = ` the captured error summary and a fresh `updated_at`,
and leaves `attempts` — and every other column (`id`, `command`,
`max_retries`, `created_at`, `result`) — unchanged; rows with other ids
are untouched. -/
theorem c8_requeue_frame (S : List Job) (inp : CycleInput) (j : Job)
    (h : (claim_one_job S inp.tClaim).2 = some j)
    (hf : (inp.runner j.command).1 ≠ 0)
    (hl : j.attempts < j.max_retries)
    (hs : inp.stop = false) :
    ((worker_cycle S inp).1 =
      update_job_state (claim_one_job S inp.tClaim).1 j.id "pending" inp.tUpdate
        ⟨none, some (some (err_summary (inp.runner j.command).1
                             (inp.runner j.command).2.2)), none⟩) ∧
    (∀ (S1 : List Job) (jid e now : String),
      (update_job_state S1 jid "pending" now ⟨none, some (some e), none⟩).length =
        S1.length ∧
      ∀ (i : Nat) (h : i < S1.length)
        (h' : i < (update_job_state S1 jid "pending" now
                     ⟨none, some (some e), none⟩).length),
        (S1[i].id ≠ jid →
          (update_job_state S1 jid "pending" now ⟨none, some (some e), none⟩)[i] =
            S1[i]) ∧
        (S1[i].id = jid →
          (update_job_state S1 jid "pending" now ⟨none, some (some e), none⟩)[i] =
            { S1[i] with
                state := "pending"
                last_error := some e
                updated_at := now })) := by
  constructor
  · have heq := worker_cycle_requeue S inp j h hf hl hs
    rw [heq]
  · intro S1 jid e now
    refine ⟨by simp [update_job_state], ?_⟩
    intro i h h'
    constructor
    · intro hc
      simp [update_job_state, hc]
    · intro hc
      simp [update_job_state, hc, applyUpdate]

/-- C8 witness: the first failed cycle of the concrete trace. -/
theorem c8_requeue_frame_witness :
    (worker_cycle [jobF] (inpF "t1" "t2")).1 =
      update_job_state (claim_one_job [jobF] "t1").1 "j" "pending" "t2"
        ⟨none, some (some "boom"), none⟩ :=
  (c8_requeue_frame [jobF] (inpF "t1" "t2") (claimedVersion jobF "t1")
    (by decide) (by decide) (by decide) rfl).1

/-! ## C10 — stop observed during backoff -/

/-- C10: when the stop flag is seen during the backoff sleep, the worker
writes the job back to `pending` passing no error summary — so the row
keeps the `last_error` it carried before this failed run (the claiming
`UPDATE` never touches `last_error` either) — and the loop breaks
without performing any further claim. -/
theorem c10_stop_requeues_without_error (S : List Job) (inp : CycleInput)
    (rest : List CycleInput) (j : Job)
    (h : (claim_one_job S inp.tClaim).2 = some j)
    (hf : (inp.runner j.command).1 ≠ 0)
    (hl : j.attempts < j.max_retries)
    (hs : inp.stop = true) :
    (worker_cycle S inp).2 = CycleOutcome.stoppedRequeue j.id ∧
    (worker_cycle S inp).1 =
      update_job_state (claim_one_job S inp.tClaim).1 j.id "pending" inp.tUpdate
        UpdateKw.none3 ∧
    worker_loop S (inp :: rest) =
      ((worker_cycle S inp).1, [CycleOutcome.stoppedRequeue j.id]) ∧
    (∀ (S1 : List Job) (jid now : String),
      (update_job_state S1 jid "pending" now UpdateKw.none3).length = S1.length ∧
      ∀ (i : Nat) (h : i < S1.length)
        (h' : i < (update_job_state S1 jid "pending" now UpdateKw.none3).length),
        (S1[i].id ≠ jid →
          (update_job_state S1 jid "pending" now UpdateKw.none3)[i] = S1[i]) ∧
        (S1[i].id = jid →
          (update_job_state S1 jid "pending" now UpdateKw.none3)[i] =
            { S1[i] with
                state := "pending"
                updated_at := now })) ∧
    (∀ (k : Job) (ts : String), (claimedVersion k ts).last_error = k.last_error) := by
  have heq := worker_cycle_stop S inp j h hf hl hs
  refine ⟨by rw [heq], by rw [heq], ?_, ?_, fun k ts => rfl⟩
  · simp only [worker_loop, heq]
  · intro S1 jid now
    refine ⟨by simp [update_job_state], ?_⟩
    intro i h h'
    constructor
    · intro hc
      simp [update_job_state, hc]
    · intro hc
      simp [update_job_state, hc, applyUpdate, UpdateKw.none3]

/-- C10 witness: the stop input breaks the loop after one iteration,
leaving a second queued input unconsumed. -/
theorem c10_stop_requeues_without_error_witness :
    worker_loop [jobF] [inpStop, inpStop] =
      ((worker_cycle [jobF] inpStop).1, [CycleOutcome.stoppedRequeue "j"]) :=
  (c10_stop_requeues_without_error [jobF] inpStop [inpStop]
    (claimedVersion jobF "t1") (by decide) (by decide) (by decide) rfl).2.2.1

